import Mathlib

/-!
Verification development for the audditAI compliance gateway.

Shallow embedding of the Rust sources:
- policy engine        crossaudit/gateway/src/policy.rs
- chat request pipeline crossaudit/gateway/src/routes.rs (fn chat)
- retrieval search     crossaudit/gateway/src/data_room.rs (fn search)
- background jobs      crossaudit/billing/src/main.rs, crossaudit/ledger-seal/src/main.rs
- text chunking        ausk/ingestor/src/chunks.rs (fn chunk_text)

External collaborators (the compiled regex crate, the LLM HTTP call, the
postgres pool and queries) are modelled as explicit parameters carrying
their outcome, so the pipeline functions are total and executable.
-/

namespace AudditAI

/-! ## Policy engine (policy.rs) -/

/-- Rule as deserialized from the YAML policy file: the action is a plain
string and the replacement is optional (policy.rs, struct Rule). -/
structure Rule where
  id : String
  pattern : String
  action : String
  replacement : Option String
deriving Repr, DecidableEq

/-- Model of a compiled matcher from the external regex crate: a match test
and a global (all-occurrences) substitution, the two operations the engine
uses (regex.is_match and regex.replace_all). -/
structure RegexM where
  isMatch : String → Bool
  replaceAllWith : String → String → String

/-- Rule paired with its compiled matcher (policy.rs, struct CompiledRule). -/
structure CompiledRule where
  rule : Rule
  regex : RegexM

/-- Ordered rule list (policy.rs, struct PolicyEngine). -/
structure PolicyEngine where
  rules : List CompiledRule

/-- Output text produced by a matched rule: replace_all of the original text
when the rule carries a replacement, the unchanged text otherwise
(policy.rs lines 52-54). -/
def matchedOutput (r : CompiledRule) (text : String) : String :=
  match r.rule.replacement with
  | some rep => r.regex.replaceAllWith text rep
  | none => text

/-- The for-loop of PolicyEngine::apply: scan in order, on the first rule
whose matcher accepts the text record its action, substitute if a
replacement is present, and break (policy.rs lines 46-59). -/
def applyRules : List CompiledRule → String → String × Option String
  | [], text => (text, none)
  | r :: rs, text =>
    if r.regex.isMatch text then (matchedOutput r text, some r.rule.action)
    else applyRules rs text

/-- PolicyEngine::apply (policy.rs lines 46-59). -/
def PolicyEngine.apply (e : PolicyEngine) (text : String) : String × Option String :=
  applyRules e.rules text

/-- Substring test: does pat occur anywhere in the haystack? -/
def hasSubstr (pat : List Char) : List Char → Bool
  | [] => pat.isEmpty
  | c :: t => pat.isPrefixOf (c :: t) || hasSubstr pat t

/-- Fuel-indexed global substitution: substitute the leftmost occurrence of
pat, continue after it (non-overlapping), and keep scanning; every
occurrence is substituted, not just the first. Each step consumes at least
one character, so fuel = length of the haystack always reaches the end. -/
def replaceAllFuel (pat rep : List Char) : Nat → List Char → List Char
  | 0, hay => hay
  | _ + 1, [] => []
  | fuel + 1, c :: t =>
    if pat.isPrefixOf (c :: t) then
      rep ++ replaceAllFuel pat rep fuel ((c :: t).drop pat.length)
    else c :: replaceAllFuel pat rep fuel t

/-- Global substitution of every occurrence of pat by rep. -/
def replaceAllChars (pat rep hay : List Char) : List Char :=
  if pat.isEmpty then hay else replaceAllFuel pat rep hay.length hay

/-- Concrete matcher for a literal (metacharacter-free) pattern: the regex
crate on such a pattern tests substring containment, and its replace_all
substitutes every non-overlapping occurrence left to right. -/
def litRegex (pat : String) : RegexM :=
  { isMatch := fun t => hasSubstr pat.data t.data
    replaceAllWith := fun t rep => String.mk (replaceAllChars pat.data rep.data t.data) }

/-! ## Chat request pipeline (routes.rs, fn chat) -/

/-- Two's-complement value of the Rust cast `n as i32` for a usize n. -/
def i32ofNat (n : Nat) : Int :=
  let m : Nat := n % 2 ^ 32
  if m < 2 ^ 31 then (m : Int) else (m : Int) - 2 ^ 32

/-- The hard-coded org id passed by the pipeline (routes.rs lines 27 and 39). -/
def nilUuid : String := "00000000-0000-0000-0000-000000000000"

/-- Row shape inserted by audit::log_chat into audit_ledger; score is an
optional f32 that the pipeline always passes as None, trace is a jsonb that
the pipeline passes as None or as the single boolean field rewritten. -/
structure AuditEntry where
  org : String
  prompt : String
  response : String
  action : String
  tokens : Int
  score : Option Unit
  fragmentIds : List String
  trace : Option Bool
deriving Repr, DecidableEq

/-- Observable outcome of one chat request: the HTTP status and body
returned, plus the traces of external effects attempted — model calls made
(effective prompt with fragment texts), audit-append attempts, and alert
publications. -/
structure ChatResult where
  status : Nat
  body : String
  modelCalls : List (String × List String)
  audits : List AuditEntry
  alerts : List String
deriving Repr, DecidableEq

/-- The fragment recovery at the top of chat: an Err from data_room::search
is replaced by an empty vector (routes.rs lines 20-23). -/
def chatFragments (sr : Except Unit (List (String × String))) : List (String × String) :=
  match sr with
  | .ok l => l
  | .error _ => []

/-- The chat handler (routes.rs lines 18-44). `searchResult` is the outcome
of data_room::search, `llmResult` the outcome of llm_client::chat, and
`_auditResult` the outcome of audit::log_chat — the code discards the latter
with .ok() in the block branch and with a wildcard let in the success
branch, so it does not influence the result. Note the success branch logs
action.unwrap_or("pass") and resp.len() as i32 (the UTF-8 byte length), and
no branch publishes any alert. -/
def chat (policy : PolicyEngine) (prompt : String)
    (searchResult : Except Unit (List (String × String)))
    (llmResult : Except String String)
    (_auditResult : Except Unit Unit) : ChatResult :=
  let fragments := chatFragments searchResult
  let applied := policy.apply prompt
  let rewritten := applied.1
  let action := applied.2
  if action = some "block" then
    { status := 403, body := "blocked", modelCalls := [],
      audits := [{ org := nilUuid, prompt := prompt, response := "blocked",
                   action := "block", tokens := 0, score := none,
                   fragmentIds := fragments.map Prod.fst, trace := none }],
      alerts := [] }
  else
    let fragmentTexts := fragments.map Prod.snd
    let fragmentIds := fragments.map Prod.fst
    match llmResult with
    | .ok resp =>
      { status := 200, body := resp,
        modelCalls := [(rewritten, fragmentTexts)],
        audits := [{ org := nilUuid, prompt := prompt, response := resp,
                     action := action.getD "pass",
                     tokens := i32ofNat resp.utf8ByteSize, score := none,
                     fragmentIds := fragmentIds,
                     trace := some (rewritten != prompt) }],
        alerts := [] }
    | .error err =>
      { status := 500, body := err,
        modelCalls := [(rewritten, fragmentTexts)],
        audits := [], alerts := [] }

/-! ## Retrieval search (data_room.rs, fn search) -/

/-- data_room::search (data_room.rs lines 66-77): embed the query, get a
pool connection, run the distance-ordered SQL query. Every step uses the
question-mark operator, so each failure propagates to the caller.
`queryResult` carries the distance-ordered rows of the chunks table; the
SQL LIMIT clause is modelled by List.take limit. -/
def search (embedResult : Except Unit Unit) (poolResult : Except Unit Unit)
    (queryResult : Except Unit (List String)) (limit : Nat) :
    Except Unit (List String) :=
  match embedResult with
  | .error e => .error e
  | .ok _ =>
    match poolResult with
    | .error e => .error e
    | .ok _ =>
      match queryResult with
      | .error e => .error e
      | .ok rows => .ok (rows.take limit)

/-! ## Background jobs (billing/src/main.rs, ledger-seal/src/main.rs) -/

/-- The common loop shape of both background jobs: each scheduled tick gets
a pool connection and executes one SQL statement, both behind the
question-mark operator inside `loop` in an async main returning Result.
Given the outcomes of the scheduled ticks in order, returns how many tick
bodies actually ran and the error main returned with, if any: an Err makes
main return, so no later tick runs. -/
def runJob : List (Except Unit Unit) → Nat × Option Unit
  | [] => (0, none)
  | Except.ok _ :: rest =>
    let r := runJob rest
    (r.1 + 1, r.2)
  | Except.error e :: _ => (1, some e)

/-- BillingAggregator main loop (billing/src/main.rs lines 13-26). -/
def billingRun : List (Except Unit Unit) → Nat × Option Unit := runJob

/-- LedgerSealer main loop (ledger-seal/src/main.rs lines 13-22). -/
def ledgerSealRun : List (Except Unit Unit) → Nat × Option Unit := runJob

/-! ## Text chunking (ausk/ingestor/src/chunks.rs, fn chunk_text)

Text is modelled as List Char; split_whitespace is modelled over it. -/

/-- Accumulator pass of split_whitespace: skip whitespace, collect maximal
non-whitespace runs (the accumulator holds the current word reversed). -/
def splitWsAux : List Char → List Char → List (List Char)
  | [], acc => if acc.isEmpty then [] else [acc.reverse]
  | c :: cs, acc =>
    if c.isWhitespace then
      if acc.isEmpty then splitWsAux cs []
      else acc.reverse :: splitWsAux cs []
    else splitWsAux cs (c :: acc)

/-- Model of str::split_whitespace().collect(). -/
def splitWs (cs : List Char) : List (List Char) := splitWsAux cs []

/-- Model of slice::join with a single space separator. -/
def joinWords : List (List Char) → List Char
  | [] => []
  | [w] => w
  | w :: ws => w ++ ' ' :: joinWords ws

/-- The while loop of chunk_text (chunks.rs lines 9-14), fuel-indexed: at
index idx with idx < words.len, take end = min (idx + size) words.len, push
the joined slice words[idx..end], continue at end. A result of none means
the given fuel did not reach loop exit; the loop diverges exactly when no
fuel suffices. -/
def chunkLoopFuel (words : List (List Char)) (size : Nat) :
    Nat → Nat → Option (List (List Char))
  | 0, idx => if idx < words.length then none else some []
  | fuel + 1, idx =>
    if idx < words.length then
      let e := min (idx + size) words.length
      (chunkLoopFuel words size fuel e).map
        (fun rest => joinWords ((words.drop idx).take (e - idx)) :: rest)
    else some []

/-- chunk_text (chunks.rs lines 3-16): split into whitespace words, return
empty for no words, otherwise run the chunking loop from index 0. -/
def chunk_text (cs : List Char) (size fuel : Nat) : Option (List (List Char)) :=
  let words := splitWs cs
  if words.isEmpty then some [] else chunkLoopFuel words size fuel 0

/-! ## Theorems about the policy engine -/

/-- Helper: the scan skips a block of rules none of which match. -/
theorem applyRules_append_no_match (pre : List CompiledRule)
    (rs : List CompiledRule) (text : String)
    (hpre : ∀ r ∈ pre, r.regex.isMatch text = false) :
    applyRules (pre ++ rs) text = applyRules rs text := by
  induction pre with
  | nil => rfl
  | cons p pre ih =>
    have hp : p.regex.isMatch text = false := hpre p (List.mem_cons_self p pre)
    have hrest : ∀ r ∈ pre, r.regex.isMatch text = false := by
      intro r hr
      exact hpre r (List.mem_cons_of_mem p hr)
    simp [applyRules, hp, ih hrest]

/-- C2: PolicyEngine.apply selects the first rule in load order whose
matcher accepts the input; the result is the matched output and action of
that rule, independent of every rule after it, so a later matching rule
never overrides an earlier one. -/
theorem policy_first_match_wins (pre : List CompiledRule) (r : CompiledRule)
    (post post2 : List CompiledRule) (text : String)
    (hpre : ∀ r2 ∈ pre, r2.regex.isMatch text = false)
    (hr : r.regex.isMatch text = true) :
    PolicyEngine.apply ⟨pre ++ r :: post⟩ text
      = (matchedOutput r text, some r.rule.action) ∧
    PolicyEngine.apply ⟨pre ++ r :: post⟩ text
      = PolicyEngine.apply ⟨pre ++ r :: post2⟩ text := by
  have key : ∀ q : List CompiledRule,
      PolicyEngine.apply ⟨pre ++ r :: q⟩ text
        = (matchedOutput r text, some r.rule.action) := by
    intro q
    show applyRules (pre ++ r :: q) text = _
    rw [applyRules_append_no_match pre (r :: q) text hpre]
    simp [applyRules, hr]
  exact ⟨key post, (key post).trans (key post2).symm⟩

/-- Witness for C2 at a concrete engine: the second rule is the first match
and the third rule is ignored. -/
theorem policy_first_match_wins_witness :
    PolicyEngine.apply
        ⟨[⟨⟨"r1", "zzz", "block", none⟩, litRegex "zzz"⟩] ++
          ⟨⟨"r2", "a", "rewrite", some "X"⟩, litRegex "a"⟩ ::
          [⟨⟨"r3", "b", "block", none⟩, litRegex "b"⟩]⟩ "ab"
      = (matchedOutput ⟨⟨"r2", "a", "rewrite", some "X"⟩, litRegex "a"⟩ "ab",
          some "rewrite") ∧
    PolicyEngine.apply
        ⟨[⟨⟨"r1", "zzz", "block", none⟩, litRegex "zzz"⟩] ++
          ⟨⟨"r2", "a", "rewrite", some "X"⟩, litRegex "a"⟩ ::
          [⟨⟨"r3", "b", "block", none⟩, litRegex "b"⟩]⟩ "ab"
      = PolicyEngine.apply
          ⟨[⟨⟨"r1", "zzz", "block", none⟩, litRegex "zzz"⟩] ++
            ⟨⟨"r2", "a", "rewrite", some "X"⟩, litRegex "a"⟩ :: []⟩ "ab" :=
  policy_first_match_wins
    [⟨⟨"r1", "zzz", "block", none⟩, litRegex "zzz"⟩]
    ⟨⟨"r2", "a", "rewrite", some "X"⟩, litRegex "a"⟩
    [⟨⟨"r3", "b", "block", none⟩, litRegex "b"⟩] [] "ab"
    (by
      intro r2 h2
      rw [List.mem_singleton] at h2
      subst h2
      rfl)
    (by rfl)

/-- C6: when the first matching rule has action rewrite and a replacement,
the output text is the global substitution replaceAllChars of the (literal)
pattern by the replacement — every occurrence, not just the first. -/
theorem rewrite_replaces_all_occurrences (pre : List CompiledRule)
    (rid pat rep : String) (post : List CompiledRule) (text : String)
    (hpre : ∀ r2 ∈ pre, r2.regex.isMatch text = false)
    (hr : (litRegex pat).isMatch text = true) :
    PolicyEngine.apply
        ⟨pre ++ ⟨⟨rid, pat, "rewrite", some rep⟩, litRegex pat⟩ :: post⟩ text
      = (String.mk (replaceAllChars pat.data rep.data text.data),
          some "rewrite") := by
  have h := policy_first_match_wins pre
    ⟨⟨rid, pat, "rewrite", some rep⟩, litRegex pat⟩ post post text hpre hr
  rw [h.1]
  rfl

/-- Witness for C6: both occurrences of the pattern are substituted, not
just the first. -/
theorem rewrite_replaces_all_occurrences_witness :
    PolicyEngine.apply
        ⟨[] ++ ⟨⟨"ssn", "1", "rewrite", some "*"⟩, litRegex "1"⟩ :: []⟩ "a1b1"
      = ("a*b*", some "rewrite") := by
  have h := rewrite_replaces_all_occurrences [] "ssn" "1" "*" [] "a1b1"
    (by intro r2 h2; cases h2) (by rfl)
  rw [h]
  rfl

/-- C9: the substitution in PolicyEngine::apply is guarded only by the
presence of a replacement, not by the action being rewrite: a first
matching rule with any action string and a replacement yields the globally
substituted text as output. -/
theorem replacement_applied_regardless_of_action (pre : List CompiledRule)
    (rid pat act rep : String) (post : List CompiledRule) (text : String)
    (hpre : ∀ r2 ∈ pre, r2.regex.isMatch text = false)
    (hr : (litRegex pat).isMatch text = true) :
    PolicyEngine.apply
        ⟨pre ++ ⟨⟨rid, pat, act, some rep⟩, litRegex pat⟩ :: post⟩ text
      = (String.mk (replaceAllChars pat.data rep.data text.data),
          some act) := by
  have h := policy_first_match_wins pre
    ⟨⟨rid, pat, act, some rep⟩, litRegex pat⟩ post post text hpre hr
  rw [h.1]
  rfl

/-- Witness for C9: a block rule carrying a replacement also rewrites. -/
theorem replacement_applied_regardless_of_action_witness :
    PolicyEngine.apply
        ⟨[] ++ ⟨⟨"b1", "x", "block", some "_"⟩, litRegex "x"⟩ :: []⟩ "axbx"
      = ("a_b_", some "block") := by
  have h := replacement_applied_regardless_of_action [] "b1" "x" "block" "_"
    [] "axbx" (by intro r2 h2; cases h2) (by rfl)
  rw [h]
  rfl

/-! ## Theorems about the chat pipeline -/

/-- Concrete engine whose single rule blocks prompts containing bad. -/
def blockEngine : PolicyEngine :=
  ⟨[⟨⟨"p1", "bad", "block", none⟩, litRegex "bad"⟩]⟩

/-- Concrete engine with no rules: nothing ever matches. -/
def emptyEngine : PolicyEngine := ⟨[]⟩

/-- C1: when the matched policy action is block, chat returns 403, makes no
model call, makes exactly one audit-append attempt with action block and
tokens 0, and the outcome of that audit write does not change the result. -/
theorem chat_block_short_circuits (policy : PolicyEngine) (prompt : String)
    (sr : Except Unit (List (String × String))) (lr : Except String String)
    (ar : Except Unit Unit)
    (hb : (policy.apply prompt).2 = some "block") :
    (chat policy prompt sr lr ar).status = 403 ∧
    (chat policy prompt sr lr ar).modelCalls = [] ∧
    (chat policy prompt sr lr ar).audits.map (fun e => (e.action, e.tokens))
      = [("block", 0)] ∧
    ∀ ar2 : Except Unit Unit,
      chat policy prompt sr lr ar = chat policy prompt sr lr ar2 := by
  refine ⟨?_, ?_, ?_, ?_⟩ <;> simp [chat, hb]

/-- Witness for C1 at a concrete blocked request (with a failing audit
write). -/
theorem chat_block_short_circuits_witness :
    (chat blockEngine "bad stuff" (Except.ok [("u1", "t1")])
        (Except.ok "resp") (Except.error ())).status = 403 ∧
    (chat blockEngine "bad stuff" (Except.ok [("u1", "t1")])
        (Except.ok "resp") (Except.error ())).modelCalls = [] ∧
    (chat blockEngine "bad stuff" (Except.ok [("u1", "t1")])
        (Except.ok "resp") (Except.error ())).audits.map
          (fun e => (e.action, e.tokens)) = [("block", 0)] ∧
    ∀ ar2 : Except Unit Unit,
      chat blockEngine "bad stuff" (Except.ok [("u1", "t1")])
          (Except.ok "resp") (Except.error ())
        = chat blockEngine "bad stuff" (Except.ok [("u1", "t1")])
            (Except.ok "resp") ar2 :=
  chat_block_short_circuits blockEngine "bad stuff"
    (Except.ok [("u1", "t1")]) (Except.ok "resp") (Except.error ()) (by rfl)

/-- Counterexample to C3 as stated: for the response with two
whitespace-delimited words and no matching rule, the code audits
action pass with tokens 11 (the UTF-8 byte length), not action allow with
tokens 2 (the word count). -/
theorem chat_audit_tokens_counterexample :
    (splitWs "hello world".data).length = 2 ∧
    ("hello world").utf8ByteSize = 11 ∧
    (chat emptyEngine "hi" (Except.ok []) (Except.ok "hello world")
        (Except.ok ())).audits.map (fun e => (e.action, e.tokens))
      = [("pass", 11)] ∧
    ¬ (chat emptyEngine "hi" (Except.ok []) (Except.ok "hello world")
        (Except.ok ())).audits.map (fun e => (e.action, e.tokens))
      = [("allow", 2)] := by
  refine ⟨by decide, by decide, by decide, by decide⟩

/-- C3 amended: on model success chat appends exactly one AuditEntry — with
the raw prompt, the response, action the matched action name (or pass when
no rule matched), tokens the UTF-8 byte length of the response cast to i32,
no score, the retrieved fragment ids, and the rewritten flag in the trace —
and returns the response with status 200. -/
theorem chat_success_audit_fields (policy : PolicyEngine) (prompt : String)
    (sr : Except Unit (List (String × String))) (resp : String)
    (ar : Except Unit Unit)
    (hb : ¬ (policy.apply prompt).2 = some "block") :
    (chat policy prompt sr (Except.ok resp) ar).status = 200 ∧
    (chat policy prompt sr (Except.ok resp) ar).body = resp ∧
    (chat policy prompt sr (Except.ok resp) ar).audits
      = [{ org := nilUuid, prompt := prompt, response := resp,
           action := (policy.apply prompt).2.getD "pass",
           tokens := i32ofNat resp.utf8ByteSize, score := none,
           fragmentIds := (chatFragments sr).map Prod.fst,
           trace := some ((policy.apply prompt).1 != prompt) }] := by
  refine ⟨?_, ?_, ?_⟩ <;> simp [chat, hb]

/-- Witness for the amended C3 at a concrete successful request. -/
theorem chat_success_audit_fields_witness :
    (chat emptyEngine "hi" (Except.ok [("u1", "t1")])
        (Except.ok "hello world") (Except.ok ())).status = 200 ∧
    (chat emptyEngine "hi" (Except.ok [("u1", "t1")])
        (Except.ok "hello world") (Except.ok ())).body = "hello world" ∧
    (chat emptyEngine "hi" (Except.ok [("u1", "t1")])
        (Except.ok "hello world") (Except.ok ())).audits
      = [{ org := nilUuid, prompt := "hi", response := "hello world",
           action := (emptyEngine.apply "hi").2.getD "pass",
           tokens := i32ofNat ("hello world").utf8ByteSize, score := none,
           fragmentIds :=
             (chatFragments (Except.ok [("u1", "t1")])).map Prod.fst,
           trace := some ((emptyEngine.apply "hi").1 != "hi") }] :=
  chat_success_audit_fields emptyEngine "hi" (Except.ok [("u1", "t1")])
    "hello world" (Except.ok ()) (by decide)

/-- Counterexample to C5 as stated: at a concrete blocked request the
pipeline publishes no alert at all, in particular not the single message
blocked:<raw prompt> the claim requires. -/
theorem chat_block_no_alert_counterexample :
    (chat blockEngine "bad stuff" (Except.ok []) (Except.ok "r")
        (Except.ok ())).status = 403 ∧
    (chat blockEngine "bad stuff" (Except.ok []) (Except.ok "r")
        (Except.ok ())).alerts = [] ∧
    ¬ (chat blockEngine "bad stuff" (Except.ok []) (Except.ok "r")
        (Except.ok ())).alerts = [String.append "blocked:" "bad stuff"] := by
  refine ⟨by decide, by decide, by decide⟩

/-- C5 amended: chat never publishes any alert — no AlertBus publication
exists on any branch, including the blocked one. -/
theorem chat_never_publishes_alerts (policy : PolicyEngine) (prompt : String)
    (sr : Except Unit (List (String × String))) (lr : Except String String)
    (ar : Except Unit Unit) :
    (chat policy prompt sr lr ar).alerts = [] := by
  by_cases hb : (policy.apply prompt).2 = some "block"
  · simp [chat, hb]
  · cases lr <;> simp [chat, hb]

/-- C7: when the model call fails (and the request was not blocked), chat
returns 500 carrying the error text, attempts exactly one model call, and
appends no audit entry. -/
theorem chat_model_failure_not_audited (policy : PolicyEngine)
    (prompt : String) (sr : Except Unit (List (String × String)))
    (err : String) (ar : Except Unit Unit)
    (hb : ¬ (policy.apply prompt).2 = some "block") :
    (chat policy prompt sr (Except.error err) ar).status = 500 ∧
    (chat policy prompt sr (Except.error err) ar).body = err ∧
    (chat policy prompt sr (Except.error err) ar).audits = [] ∧
    (chat policy prompt sr (Except.error err) ar).modelCalls.length = 1 := by
  refine ⟨?_, ?_, ?_, ?_⟩ <;> simp [chat, hb]

/-- Witness for C7 at a concrete failing model call. -/
theorem chat_model_failure_not_audited_witness :
    (chat emptyEngine "hi" (Except.ok []) (Except.error "boom")
        (Except.ok ())).status = 500 ∧
    (chat emptyEngine "hi" (Except.ok []) (Except.error "boom")
        (Except.ok ())).body = "boom" ∧
    (chat emptyEngine "hi" (Except.ok []) (Except.error "boom")
        (Except.ok ())).audits = [] ∧
    (chat emptyEngine "hi" (Except.ok []) (Except.error "boom")
        (Except.ok ())).modelCalls.length = 1 :=
  chat_model_failure_not_audited emptyEngine "hi" (Except.ok []) "boom"
    (Except.ok ()) (by decide)

/-! ## Theorems about retrieval search -/

/-- Counterexample to C4 as stated: on an embedding failure, search returns
the error to its caller instead of an empty sequence. -/
theorem search_error_counterexample :
    search (Except.error ()) (Except.ok ()) (Except.ok ["d1"]) 3
      = Except.error () ∧
    ¬ search (Except.error ()) (Except.ok ()) (Except.ok ["d1"]) 3
      = Except.ok [] := by
  refine ⟨by rfl, by intro h; simp [search] at h⟩

/-- C4 amended: search returns at most limit rows whenever it succeeds, but
on any internal failure — embedding failure, pool failure, or query
failure — it propagates the error to its caller; it is the chat caller that
converts a search failure into an empty fragment list. -/
theorem search_limit_and_error_path (er pr : Except Unit Unit)
    (qr : Except Unit (List String)) (limit : Nat) :
    (∀ l, search er pr qr limit = Except.ok l → l.length ≤ limit) ∧
    (er = Except.error () ∨ pr = Except.error () ∨ qr = Except.error () →
      search er pr qr limit = Except.error ()) ∧
    (∀ e : Unit, chatFragments (Except.error e) = []) := by
  refine ⟨?_, ?_, ?_⟩
  · intro l hl
    cases er with
    | error e => simp [search] at hl
    | ok _ =>
      cases pr with
      | error e => simp [search] at hl
      | ok _ =>
        cases qr with
        | error e => simp [search] at hl
        | ok rows =>
          simp [search] at hl
          subst hl
          simp [List.length_take_le]
  · rintro (he | hp | hq)
    · subst he
      rfl
    · subst hp
      cases er with
      | error e => cases e; rfl
      | ok u => rfl
    · subst hq
      cases er with
      | error e => cases e; rfl
      | ok u =>
        cases pr with
        | error e => cases e; rfl
        | ok u2 => rfl
  · intro e
    rfl

/-- Witness for the amended C4 at concrete inputs: three ordered rows with
limit two yield at most two rows, and each of the three failure points —
embed, pool, query — propagates its error. -/
theorem search_limit_and_error_path_witness :
    (∀ l, search (Except.ok ()) (Except.ok ())
        (Except.ok ["d1", "d2", "d3"]) 2 = Except.ok l → l.length ≤ 2) ∧
    search (Except.error ()) (Except.ok ())
      (Except.ok ["d1", "d2", "d3"]) 2 = Except.error () ∧
    search (Except.ok ()) (Except.error ())
      (Except.ok ["d1", "d2", "d3"]) 2 = Except.error () ∧
    search (Except.ok ()) (Except.ok ())
      (Except.error ()) 2 = Except.error () ∧
    (∀ e : Unit, chatFragments (Except.error e) = []) :=
  ⟨(search_limit_and_error_path (Except.ok ()) (Except.ok ())
      (Except.ok ["d1", "d2", "d3"]) 2).1,
    (search_limit_and_error_path (Except.error ()) (Except.ok ())
      (Except.ok ["d1", "d2", "d3"]) 2).2.1 (Or.inl rfl),
    (search_limit_and_error_path (Except.ok ()) (Except.error ())
      (Except.ok ["d1", "d2", "d3"]) 2).2.1 (Or.inr (Or.inl rfl)),
    (search_limit_and_error_path (Except.ok ()) (Except.ok ())
      (Except.error ()) 2).2.1 (Or.inr (Or.inr rfl)),
    (search_limit_and_error_path (Except.ok ()) (Except.ok ())
      (Except.ok ["d1", "d2", "d3"]) 2).2.2⟩

/-! ## Theorems about the background jobs -/

/-- Counterexample to C8 as stated: with a first tick that fails and a
second tick scheduled, both jobs attempt only one tick body and their main
returns with the error — the next scheduled tick is never executed. -/
theorem job_tick_error_counterexample :
    (billingRun [Except.error (), Except.ok ()]).1 = 1 ∧
    ¬ (billingRun [Except.error (), Except.ok ()]).1 = 2 ∧
    (billingRun [Except.error (), Except.ok ()]).2 = some () ∧
    (ledgerSealRun [Except.error (), Except.ok ()]).1 = 1 ∧
    (ledgerSealRun [Except.error (), Except.ok ()]).2 = some () := by
  refine ⟨by rfl, by decide, by rfl, by rfl, by rfl⟩

/-- C8 amended: in both background jobs the question-mark operator makes a
failing database operation propagate out of the loop, so after any run of
successful ticks a failing tick is the last tick body that runs — main
returns with the error and no later scheduled tick executes. -/
theorem job_tick_error_terminates_loop (pre rest : List (Except Unit Unit))
    (hpre : ∀ t ∈ pre, t = Except.ok ()) :
    billingRun (pre ++ Except.error () :: rest)
      = (pre.length + 1, some ()) ∧
    ledgerSealRun (pre ++ Except.error () :: rest)
      = (pre.length + 1, some ()) := by
  have key : runJob (pre ++ Except.error () :: rest)
      = (pre.length + 1, some ()) := by
    induction pre with
    | nil => rfl
    | cons t pre ih =>
      have ht : t = Except.ok () := hpre t (List.mem_cons_self t pre)
      have hrest : ∀ t2 ∈ pre, t2 = Except.ok () := by
        intro t2 h2
        exact hpre t2 (List.mem_cons_of_mem t h2)
      subst ht
      simp [runJob, ih hrest]
  exact ⟨key, key⟩

/-- Witness for the amended C8: one successful tick, then a failure, then a
scheduled tick that never runs. -/
theorem job_tick_error_terminates_loop_witness :
    billingRun ([Except.ok ()] ++ Except.error () :: [Except.ok ()])
      = (1 + 1, some ()) ∧
    ledgerSealRun ([Except.ok ()] ++ Except.error () :: [Except.ok ()])
      = (1 + 1, some ()) :=
  job_tick_error_terminates_loop [Except.ok ()] [Except.ok ()]
    (by
      intro t ht
      rw [List.mem_singleton] at ht
      exact ht)

/-! ## Theorems about chunk_text -/

/-- A word produced by whitespace splitting: nonempty and free of
whitespace characters. -/
def goodWord (w : List Char) : Prop :=
  w ≠ [] ∧ ∀ c ∈ w, c.isWhitespace = false

/-- Every word emitted by the splitting pass is nonempty and
whitespace-free, provided the accumulator only holds non-whitespace
characters. -/
theorem splitWsAux_good (cs : List Char) :
    ∀ acc, (∀ c ∈ acc, c.isWhitespace = false) →
      ∀ w ∈ splitWsAux cs acc, goodWord w := by
  induction cs with
  | nil =>
    intro acc hacc w hw
    by_cases he : acc.isEmpty
    · simp [splitWsAux, he] at hw
    · simp [splitWsAux, he] at hw
      subst hw
      constructor
      · intro hcon
        have : acc = [] := by simpa using congrArg List.reverse hcon
        subst this
        simp at he
      · intro c hc
        exact hacc c (List.mem_reverse.mp hc)
  | cons c cs ih =>
    intro acc hacc w hw
    by_cases hws : c.isWhitespace
    · by_cases he : acc.isEmpty
      · rw [splitWsAux, if_pos hws, if_pos he] at hw
        exact ih [] (by simp) w hw
      · rw [splitWsAux, if_pos hws, if_neg he] at hw
        rcases List.mem_cons.mp hw with hw1 | hw2
        · subst hw1
          constructor
          · intro hcon
            have : acc = [] := by simpa using congrArg List.reverse hcon
            subst this
            simp at he
          · intro c2 hc2
            exact hacc c2 (List.mem_reverse.mp hc2)
        · exact ih [] (by simp) w hw2
    · rw [splitWsAux, if_neg hws] at hw
      refine ih (c :: acc) ?_ w hw
      intro c2 hc2
      rcases List.mem_cons.mp hc2 with h1 | h2
      · subst h1
        simpa using hws
      · exact hacc c2 h2

/-- Scanning a whitespace-free block just moves it into the accumulator. -/
theorem splitWsAux_chain (w : List Char) :
    ∀ cs acc, (∀ c ∈ w, c.isWhitespace = false) →
      splitWsAux (w ++ cs) acc = splitWsAux cs (w.reverse ++ acc) := by
  induction w with
  | nil => intro cs acc _; rfl
  | cons c w ih =>
    intro cs acc hgood
    have hc : c.isWhitespace = false := hgood c (List.mem_cons_self c w)
    have hw : ∀ c2 ∈ w, c2.isWhitespace = false := by
      intro c2 h2
      exact hgood c2 (List.mem_cons_of_mem c h2)
    show splitWsAux (c :: (w ++ cs)) acc = _
    rw [splitWsAux, if_neg (by simp [hc])]
    rw [ih cs (c :: acc) hw]
    simp

/-- Splitting inverts joining: whitespace splitting of words joined by
single spaces returns exactly those words, when each word is nonempty and
whitespace-free. -/
theorem splitWs_joinWords (ws : List (List Char))
    (hws : ∀ w ∈ ws, goodWord w) : splitWs (joinWords ws) = ws := by
  induction ws with
  | nil => rfl
  | cons w rest ih =>
    have hw : goodWord w := hws w (List.mem_cons_self w rest)
    have hrest : ∀ w2 ∈ rest, goodWord w2 := by
      intro w2 h2
      exact hws w2 (List.mem_cons_of_mem w h2)
    cases rest with
    | nil =>
      show splitWsAux w [] = [w]
      have h1 : splitWsAux (w ++ []) [] = splitWsAux [] (w.reverse ++ []) :=
        splitWsAux_chain w [] [] hw.2
      rw [List.append_nil] at h1
      rw [h1, splitWsAux]
      rw [if_neg (by simp [hw.1])]
      simp
    | cons w2 rest2 =>
      show splitWsAux (w ++ ' ' :: joinWords (w2 :: rest2)) [] = _
      rw [splitWsAux_chain w (' ' :: joinWords (w2 :: rest2)) [] hw.2]
      rw [splitWsAux, if_pos (by decide)]
      rw [if_neg (by simp [hw.1])]
      have : splitWsAux (joinWords (w2 :: rest2)) [] = w2 :: rest2 :=
        ih hrest
      rw [this]
      simp

/-- With positive chunk size the loop reaches the exit once the fuel covers
the remaining word count. -/
theorem chunkLoopFuel_some (words : List (List Char)) (size : Nat)
    (hsize : 1 ≤ size) :
    ∀ fuel idx, words.length ≤ idx + fuel →
      (chunkLoopFuel words size fuel idx).isSome := by
  intro fuel
  induction fuel with
  | zero =>
    intro idx h
    have : ¬ idx < words.length := by omega
    simp [chunkLoopFuel, this]
  | succ fuel ih =>
    intro idx h
    by_cases hidx : idx < words.length
    · have he : idx + 1 ≤ min (idx + size) words.length := by omega
      have hfuel : words.length ≤ min (idx + size) words.length + fuel := by
        omega
      have := ih (min (idx + size) words.length) hfuel
      rw [chunkLoopFuel, if_pos hidx]
      rcases Option.isSome_iff_exists.mp this with ⟨rest, hrest⟩
      simp [hrest]
    · rw [chunkLoopFuel, if_neg hidx]
      rfl

/-- Every chunk the loop emits is a join of at most size consecutive words
of the word list. -/
theorem chunkLoopFuel_chunks (words : List (List Char)) (size : Nat) :
    ∀ fuel idx res, chunkLoopFuel words size fuel idx = some res →
      ∀ chunk ∈ res, ∃ ws2, chunk = joinWords ws2 ∧ ws2.length ≤ size ∧
        ∀ w ∈ ws2, w ∈ words := by
  intro fuel
  induction fuel with
  | zero =>
    intro idx res hres chunk hchunk
    by_cases hidx : idx < words.length
    · simp [chunkLoopFuel, hidx] at hres
    · simp [chunkLoopFuel, hidx] at hres
      subst hres
      cases hchunk
  | succ fuel ih =>
    intro idx res hres chunk hchunk
    by_cases hidx : idx < words.length
    · rw [chunkLoopFuel, if_pos hidx] at hres
      dsimp only at hres
      cases hrec : chunkLoopFuel words size fuel
          (min (idx + size) words.length) with
      | none => rw [hrec] at hres; cases hres
      | some rest =>
        rw [hrec] at hres
        simp at hres
        subst hres
        rcases List.mem_cons.mp hchunk with h1 | h2
        · refine ⟨(words.drop idx).take (min (idx + size) words.length - idx),
            h1, ?_, ?_⟩
          · have := List.length_take_le
              (min (idx + size) words.length - idx) (words.drop idx)
            omega
          · intro w hw
            exact List.drop_subset idx words (List.take_subset _ _ hw)
        · exact ih (min (idx + size) words.length) rest hrec chunk h2
    · rw [chunkLoopFuel, if_neg hidx] at hres
      simp at hres
      subst hres
      cases hchunk

/-- With size zero the loop never advances: no amount of fuel reaches the
exit from inside the word list. -/
theorem chunkLoopFuel_zero_size_none (words : List (List Char)) :
    ∀ fuel idx, idx < words.length →
      chunkLoopFuel words 0 fuel idx = none := by
  intro fuel
  induction fuel with
  | zero =>
    intro idx hidx
    simp [chunkLoopFuel, hidx]
  | succ fuel ih =>
    intro idx hidx
    rw [chunkLoopFuel, if_pos hidx]
    have hmin : min (idx + 0) words.length = idx := by omega
    dsimp only
    rw [hmin, ih idx hidx]
    rfl

/-- C10: for every text, chunk_text terminates whenever size is at least
one — some fuel (namely the word count) reaches loop exit — and then every
returned chunk splits back into at most size whitespace-delimited words;
with size zero and at least one whitespace-delimited word in the text, no
fuel reaches loop exit: the while loop diverges. -/
theorem chunk_text_spec (cs : List Char) (size : Nat) :
    (1 ≤ size → ∃ fuel res, chunk_text cs size fuel = some res ∧
      ∀ chunk ∈ res, (splitWs chunk).length ≤ size) ∧
    (size = 0 → splitWs cs ≠ [] → ∀ fuel, chunk_text cs size fuel = none) := by
  constructor
  · intro hsize
    by_cases hempty : (splitWs cs).isEmpty
    · refine ⟨0, [], ?_, ?_⟩
      · simp [chunk_text, hempty]
      · intro chunk hchunk
        cases hchunk
    · have hlen : (splitWs cs).length ≤ 0 + (splitWs cs).length := by omega
      have hsome := chunkLoopFuel_some (splitWs cs) size hsize
        (splitWs cs).length 0 hlen
      rcases Option.isSome_iff_exists.mp hsome with ⟨res, hres⟩
      refine ⟨(splitWs cs).length, res, ?_, ?_⟩
      · simp [chunk_text, hempty, hres]
      · intro chunk hchunk
        rcases chunkLoopFuel_chunks (splitWs cs) size (splitWs cs).length
          0 res hres chunk hchunk with ⟨ws2, hj, hlen2, hmem⟩
        have hgood : ∀ w ∈ ws2, goodWord w := by
          intro w hw
          exact splitWsAux_good cs [] (by simp) w (hmem w hw)
        rw [hj, splitWs_joinWords ws2 hgood]
        exact hlen2
  · intro hzero hne fuel
    subst hzero
    have hempty : (splitWs cs).isEmpty = false := by
      cases h : splitWs cs with
      | nil => exact absurd h hne
      | cons w rest => rfl
    have hpos : 0 < (splitWs cs).length := by
      cases h : splitWs cs with
      | nil => exact absurd h hne
      | cons w rest => simp
    simp [chunk_text, hempty]
    exact chunkLoopFuel_zero_size_none (splitWs cs) fuel 0 hpos

/-- Witness for C10: the three-word text in chunks of two words terminates
with chunks of at most two words, and with size zero a one-word text
diverges at a sample fuel. -/
theorem chunk_text_spec_witness :
    (∃ fuel res, chunk_text ("a b c".data) 2 fuel = some res ∧
      ∀ chunk ∈ res, (splitWs chunk).length ≤ 2) ∧
    chunk_text ("a".data) 0 7 = none :=
  ⟨(chunk_text_spec ("a b c".data) 2).1 (by decide),
    (chunk_text_spec ("a".data) 0).2 rfl (by decide) 7⟩

end AudditAI
